import Mathlib

/-!
Verification of the `AreaLight` / `RectangularAreaLight` core of the Impact
rendering engine (`src/Rendering3D/include/AreaLight.hpp`,
`src/Rendering3D/include/RectangularAreaLight.hpp`).

The repository ships only the class declarations; the member-function bodies
are not part of the sources.  The behaviour of every operation is therefore
modelled from the specification (spec.md §3, §4, §7), over exact real
arithmetic: `imp_float` becomes `ℝ`, `Point`/`Vector` become `Vec3`, and the
fallible constructors and transformations return `Except LightError`.

The file is organised as: data-model definitions first, then helper lemmas,
then one theorem per specification claim (with concrete witnesses).
-/

namespace Impact

/-- Modelled from the spec: the `Point3`/`Vector3` geometric primitive
(position or free vector in 3D space, three real coordinates). -/
structure Vec3 where
  x : ℝ
  y : ℝ
  z : ℝ

namespace Vec3

noncomputable instance : Add Vec3 := ⟨fun a b => ⟨a.x + b.x, a.y + b.y, a.z + b.z⟩⟩

noncomputable instance : Sub Vec3 := ⟨fun a b => ⟨a.x - b.x, a.y - b.y, a.z - b.z⟩⟩

noncomputable instance : Neg Vec3 := ⟨fun a => ⟨-a.x, -a.y, -a.z⟩⟩

noncomputable instance : SMul ℝ Vec3 := ⟨fun c a => ⟨c * a.x, c * a.y, c * a.z⟩⟩

instance : Zero Vec3 := ⟨⟨0, 0, 0⟩⟩

noncomputable instance : DecidableEq Vec3 := Classical.decEq Vec3

/-- Modelled from the spec: the Euclidean dot product on 3D vectors. -/
def dot (a b : Vec3) : ℝ := a.x * b.x + a.y * b.y + a.z * b.z

/-- Modelled from the spec: the 3D cross product. -/
def cross (a b : Vec3) : Vec3 :=
  ⟨a.y * b.z - a.z * b.y, a.z * b.x - a.x * b.z, a.x * b.y - a.y * b.x⟩

/-- Squared Euclidean length. -/
def normSq (a : Vec3) : ℝ := a.dot a

/-- Euclidean length of a vector (`getLength` of the geometric primitive). -/
noncomputable def norm (a : Vec3) : ℝ := Real.sqrt a.normSq

/-- Modelled from the spec: normalization of a vector to unit length
(`getNormalized`).  On the zero vector it returns the zero vector. -/
noncomputable def normalize (a : Vec3) : Vec3 := (1 / a.norm) • a

end Vec3

/-- Modelled from the spec: a sampled surface point bundled with its local
orientation and the uniform sampling density (spec.md §3, §4.2). -/
structure SurfaceElement where
  point : Vec3
  normal : Vec3
  density : ℝ

/-- Modelled from the spec: one triangle of the coarse polygonal surface
approximation (an ordered vertex triple, spec.md §6). -/
structure Triangle where
  v0 : Vec3
  v1 : Vec3
  v2 : Vec3

/-- The (non-normalized) outward normal of a triangle, from its winding
order. -/
noncomputable def Triangle.normalVec (t : Triangle) : Vec3 :=
  (t.v1 - t.v0).cross (t.v2 - t.v0)

/-- The unit outward normal of a triangle. -/
noncomputable def Triangle.unitNormal (t : Triangle) : Vec3 :=
  t.normalVec.normalize

/-- Modelled from the spec: `TriangleMesh`, constructible from an ordered
list of vertex triples (spec.md §6). -/
def TriangleMesh := List Triangle

/-- The number of triangles in a mesh. -/
def TriangleMesh.size (m : TriangleMesh) : ℕ := List.length m

/-- Modelled from the spec: `CoordinateFrame` — an origin plus three basis
vectors defining a local coordinate system embedded in world space
(spec.md §3, Glossary). -/
structure CoordinateFrame where
  origin : Vec3
  basis_1 : Vec3
  basis_2 : Vec3
  basis_3 : Vec3

/-- Modelled from the spec: a linear transformation operator, stored by its
action on the standard basis (three image columns); it exposes
apply-to-vector (spec.md §6). -/
structure LinearTransformation where
  col_1 : Vec3
  col_2 : Vec3
  col_3 : Vec3

namespace LinearTransformation

/-- Apply the linear map to a free vector. -/
noncomputable def applyToVector (t : LinearTransformation) (v : Vec3) : Vec3 :=
  v.x • t.col_1 + v.y • t.col_2 + v.z • t.col_3

/-- The determinant of the linear map (triple product of the columns);
used to detect non-invertible maps (spec.md §7). -/
def det (t : LinearTransformation) : ℝ :=
  (t.col_1.cross t.col_2).dot t.col_3

/-- The identity linear map. -/
def identityMap : LinearTransformation :=
  ⟨⟨1, 0, 0⟩, ⟨0, 1, 0⟩, ⟨0, 0, 1⟩⟩

/-- Uniform scaling by a factor `s`. -/
def uniformScale (s : ℝ) : LinearTransformation :=
  ⟨⟨s, 0, 0⟩, ⟨0, s, 0⟩, ⟨0, 0, s⟩⟩

end LinearTransformation

/-- Modelled from the spec: an affine transformation operator — a linear
part plus a translation component; it exposes apply-to-point and
apply-to-vector (spec.md §4.2, §6). -/
structure AffineTransformation where
  linearPart : LinearTransformation
  translationPart : Vec3

namespace AffineTransformation

/-- Free vectors are unaffected by the translation component. -/
noncomputable def applyToVector (t : AffineTransformation) (v : Vec3) : Vec3 :=
  t.linearPart.applyToVector v

/-- Points get the linear part followed by the translation component. -/
noncomputable def applyToPoint (t : AffineTransformation) (p : Vec3) : Vec3 :=
  t.linearPart.applyToVector p + t.translationPart

end AffineTransformation

/-- Modelled from the spec: the caller-visible error kinds of spec.md §7. -/
inductive LightError where
  | InvalidGeometry
  | InvalidTransformation
deriving DecidableEq

namespace Rendering3D

/-- Modelled from the spec: the state of a `RectangularAreaLight`
(spec.md §3): origin point (rectangle center), two edge vectors and a
facing direction vector, scalar width/height, a sample count, a `Power`
value, and the `AreaLight` configuration attributes `creates_shadows`
(default true) and `ambient_radiance` (default black = zero). -/
structure RectangularAreaLight where
  origin : Vec3
  width_vector : Vec3
  height_vector : Vec3
  direction : Vec3
  power : ℝ
  width : ℝ
  height : ℝ
  n_samples : ℕ
  creates_shadows : Bool := true
  ambient_radiance : ℝ := 0

namespace RectangularAreaLight

/-- Modelled from the spec (§4.2 construction, §7 errors): the constructor
taking an explicit unit facing direction.  The direction-aligned component
of `new_width_vector` is projected out; the result is normalized and scaled
back to its length; `height_vector = normalize(direction × width_vector) ×
height`.  Degenerate inputs (width vector parallel to direction, zero-length
width vector, `height ≤ 0`) fail with `InvalidGeometry`. -/
noncomputable def mkFromDirection (new_center direction new_width_vector : Vec3)
    (height new_power : ℝ) (new_n_samples : ℕ) :
    Except LightError RectangularAreaLight :=
  let projected :=
    new_width_vector - (new_width_vector.dot direction) • direction
  if height ≤ 0 ∨ projected = 0 then
    .error .InvalidGeometry
  else
    let wv := projected.norm • projected.normalize
    .ok { origin := new_center
          width_vector := wv
          height_vector := height • (direction.cross wv).normalize
          direction := direction
          power := new_power
          width := projected.norm
          height := height
          n_samples := new_n_samples }

/-- Modelled from the spec (§4.2): the constructor taking a target point,
deriving `direction = normalize(point_in_direction − new_center)` and then
proceeding exactly as the direction-based constructor. -/
noncomputable def mkFromPoint (new_center point_in_direction new_width_vector : Vec3)
    (height new_power : ℝ) (new_n_samples : ℕ) :
    Except LightError RectangularAreaLight :=
  mkFromDirection new_center (point_in_direction - new_center).normalize
    new_width_vector height new_power new_n_samples

/-- Modelled from the spec (§4.2, §4.6, design note): the surface area,
computed as `|width_vector × height_vector|`, which equals
`|width_vector| · |height_vector|` whenever the edges are orthogonal and
stays correct for the general parallelogram after a
non-orthogonality-preserving transformation. -/
noncomputable def getSurfaceArea (l : RectangularAreaLight) : ℝ :=
  (l.width_vector.cross l.height_vector).norm

/-- Modelled from the spec (§4.1): the per-shading-point sample count,
pure configuration. -/
def getNumberOfSamples (l : RectangularAreaLight) : ℕ := l.n_samples

/-- Modelled from the spec (§4.2): the stored `Power`, unmodified. -/
def getTotalPower (l : RectangularAreaLight) : ℝ := l.power

/-- Corner `origin − width_vector/2 − height_vector/2`. -/
noncomputable def corner_mm (l : RectangularAreaLight) : Vec3 :=
  l.origin - (1 / 2 : ℝ) • l.width_vector - (1 / 2 : ℝ) • l.height_vector

/-- Corner `origin + width_vector/2 − height_vector/2`. -/
noncomputable def corner_pm (l : RectangularAreaLight) : Vec3 :=
  l.origin + (1 / 2 : ℝ) • l.width_vector - (1 / 2 : ℝ) • l.height_vector

/-- Corner `origin + width_vector/2 + height_vector/2`. -/
noncomputable def corner_pp (l : RectangularAreaLight) : Vec3 :=
  l.origin + (1 / 2 : ℝ) • l.width_vector + (1 / 2 : ℝ) • l.height_vector

/-- Corner `origin − width_vector/2 + height_vector/2`. -/
noncomputable def corner_mp (l : RectangularAreaLight) : Vec3 :=
  l.origin - (1 / 2 : ℝ) • l.width_vector + (1 / 2 : ℝ) • l.height_vector

/-- Modelled from the spec (§4.2 getMesh): two triangles covering the four
corners `origin ± width_vector/2 ± height_vector/2`, wound so the outward
normal equals `direction`. -/
noncomputable def getMesh (l : RectangularAreaLight) : TriangleMesh :=
  [⟨l.corner_mm, l.corner_pm, l.corner_pp⟩,
   ⟨l.corner_mm, l.corner_pp, l.corner_mp⟩]

/-- Modelled from the spec (§4.2 sampling algorithm): given two independent
uniform draws `u, v ∈ [0, 1)` from the sampling service, the sample point
`origin − width_vector/2 − height_vector/2 + u·width_vector +
v·height_vector`. -/
noncomputable def getRandomPoint (l : RectangularAreaLight) (u v : ℝ) : Vec3 :=
  l.origin - (1 / 2 : ℝ) • l.width_vector - (1 / 2 : ℝ) • l.height_vector
    + u • l.width_vector + v • l.height_vector

/-- Modelled from the spec (§4.2): the sample point wrapped together with
the light's fixed normal (= `direction`) and the constant sampling density
`1 / getSurfaceArea()`. -/
noncomputable def getRandomSurfaceElement (l : RectangularAreaLight) (u v : ℝ) :
    SurfaceElement :=
  { point := l.getRandomPoint u v
    normal := l.direction
    density := 1 / l.getSurfaceArea }

/-- Modelled from the spec (§3, §6): the light's placement as a coordinate
frame — its origin plus the basis `(width_vector, height_vector,
direction)`. -/
def getCoordinateFrame (l : RectangularAreaLight) : CoordinateFrame :=
  ⟨l.origin, l.width_vector, l.height_vector, l.direction⟩

/-- Modelled from the spec (§4.2 setCoordinateFrame): relocates the origin
and re-derives `width_vector`, `height_vector` and `direction` from the
frame's basis, preserving the stored width/height scalars and
re-establishing orthogonality between `width_vector` and `direction`. -/
noncomputable def setCoordinateFrame (l : RectangularAreaLight)
    (cframe : CoordinateFrame) : RectangularAreaLight :=
  let d := cframe.basis_3
  let projected := cframe.basis_1 - (cframe.basis_1.dot d) • d
  let wv := l.width • projected.normalize
  { l with
    origin := cframe.origin
    direction := d
    width_vector := wv
    height_vector := l.height • (d.cross wv).normalize }

/-- Modelled from the spec (§4.2 applyTransformation(linear-map), §7): maps
the origin (as an offset from a fixed reference), both edge vectors and the
direction through the linear map; the width/height scalars become the
post-map edge-vector magnitudes.  A map collapsing an edge vector to zero
length, or otherwise non-invertible, fails with `InvalidTransformation`. -/
noncomputable def applyTransformationLinear (l : RectangularAreaLight)
    (t : LinearTransformation) : Except LightError RectangularAreaLight :=
  let wv := t.applyToVector l.width_vector
  let hv := t.applyToVector l.height_vector
  if wv = 0 ∨ hv = 0 ∨ t.det = 0 then
    .error .InvalidTransformation
  else
    .ok { l with
          origin := t.applyToVector l.origin
          width_vector := wv
          height_vector := hv
          direction := t.applyToVector l.direction
          width := wv.norm
          height := hv.norm }

/-- Modelled from the spec (§4.2 applyTransformation(affine-map), §7):
identical to the linear overload, plus the map's translation component
applied to the origin. -/
noncomputable def applyTransformationAffine (l : RectangularAreaLight)
    (t : AffineTransformation) : Except LightError RectangularAreaLight :=
  let wv := t.applyToVector l.width_vector
  let hv := t.applyToVector l.height_vector
  if wv = 0 ∨ hv = 0 ∨ t.linearPart.det = 0 then
    .error .InvalidTransformation
  else
    .ok { l with
          origin := t.applyToPoint l.origin
          width_vector := wv
          height_vector := hv
          direction := t.applyToVector l.direction
          width := wv.norm
          height := hv.norm }

/-- The construction invariant of spec.md §3: unit facing direction,
`width_vector` orthogonal to it and of length `width`, positive height,
and `height_vector` derived as `normalize(direction × width_vector) ·
height`. -/
def Valid (l : RectangularAreaLight) : Prop :=
  l.direction.norm = 1 ∧
  l.width_vector.dot l.direction = 0 ∧
  l.width_vector ≠ 0 ∧
  l.width_vector.norm = l.width ∧
  0 < l.height ∧
  l.height_vector = l.height • (l.direction.cross l.width_vector).normalize

/-- One post-construction mutation of a light: the three operations the
spec allows after construction (spec.md §3 lifecycle). -/
inductive LightOp where
  | setFrame (cframe : CoordinateFrame)
  | linearMap (t : LinearTransformation)
  | affineMap (t : AffineTransformation)

/-- Apply one mutation. -/
noncomputable def applyOp (l : RectangularAreaLight) :
    LightOp → Except LightError RectangularAreaLight
  | .setFrame cframe => .ok (l.setCoordinateFrame cframe)
  | .linearMap t => l.applyTransformationLinear t
  | .affineMap t => l.applyTransformationAffine t

/-- Apply a sequence of mutations, stopping at the first failure. -/
noncomputable def applyOps (l : RectangularAreaLight) :
    List LightOp → Except LightError RectangularAreaLight
  | [] => .ok l
  | op :: rest =>
    match l.applyOp op with
    | .error e => .error e
    | .ok l2 => applyOps l2 rest

/-- The concrete light of spec.md §8: center `(0,0,0)`, direction
`(0,0,−1)`, width vector `(2,0,0)`, height 2, with power 10 and 4
samples. -/
noncomputable def demoLight : RectangularAreaLight :=
  { origin := ⟨0, 0, 0⟩
    width_vector := ⟨2, 0, 0⟩
    height_vector := ⟨0, -2, 0⟩
    direction := ⟨0, 0, -1⟩
    power := 10
    width := 2
    height := 2
    n_samples := 4 }

end RectangularAreaLight

end Rendering3D

namespace Vec3

@[ext] theorem ext3 {a b : Vec3} (hx : a.x = b.x) (hy : a.y = b.y) (hz : a.z = b.z) :
    a = b := by
  cases a; cases b; simp_all

@[simp] theorem add_x (a b : Vec3) : (a + b).x = a.x + b.x := rfl
@[simp] theorem add_y (a b : Vec3) : (a + b).y = a.y + b.y := rfl
@[simp] theorem add_z (a b : Vec3) : (a + b).z = a.z + b.z := rfl
@[simp] theorem sub_x (a b : Vec3) : (a - b).x = a.x - b.x := rfl
@[simp] theorem sub_y (a b : Vec3) : (a - b).y = a.y - b.y := rfl
@[simp] theorem sub_z (a b : Vec3) : (a - b).z = a.z - b.z := rfl
@[simp] theorem neg_x (a : Vec3) : (-a).x = -a.x := rfl
@[simp] theorem neg_y (a : Vec3) : (-a).y = -a.y := rfl
@[simp] theorem neg_z (a : Vec3) : (-a).z = -a.z := rfl
@[simp] theorem smul_x (c : ℝ) (a : Vec3) : (c • a).x = c * a.x := rfl
@[simp] theorem smul_y (c : ℝ) (a : Vec3) : (c • a).y = c * a.y := rfl
@[simp] theorem smul_z (c : ℝ) (a : Vec3) : (c • a).z = c * a.z := rfl
@[simp] theorem zero_x : (0 : Vec3).x = 0 := rfl
@[simp] theorem zero_y : (0 : Vec3).y = 0 := rfl
@[simp] theorem zero_z : (0 : Vec3).z = 0 := rfl

theorem normSq_nonneg (a : Vec3) : 0 ≤ a.normSq := by
  have hx := sq_nonneg a.x
  have hy := sq_nonneg a.y
  have hz := sq_nonneg a.z
  simp only [normSq, dot, sq] at *
  nlinarith

theorem normSq_eq_zero_iff (a : Vec3) : a.normSq = 0 ↔ a = 0 := by
  constructor
  · intro h
    have hx := sq_nonneg a.x
    have hy := sq_nonneg a.y
    have hz := sq_nonneg a.z
    simp only [normSq, dot, sq] at *
    apply ext3 <;> simp <;> nlinarith
  · intro h
    subst h
    simp [normSq, dot]

theorem norm_nonneg (a : Vec3) : 0 ≤ a.norm := Real.sqrt_nonneg _

theorem norm_eq_zero_iff (a : Vec3) : a.norm = 0 ↔ a = 0 := by
  rw [norm, Real.sqrt_eq_zero (normSq_nonneg a), normSq_eq_zero_iff]

theorem norm_pos_of_ne_zero {a : Vec3} (h : a ≠ 0) : 0 < a.norm := by
  rcases lt_or_eq_of_le (norm_nonneg a) with h1 | h1
  · exact h1
  · exact absurd ((norm_eq_zero_iff a).mp h1.symm) h

theorem sq_norm (a : Vec3) : a.norm ^ 2 = a.normSq :=
  Real.sq_sqrt (normSq_nonneg a)

theorem normSq_of_norm_one {a : Vec3} (h : a.norm = 1) : a.normSq = 1 := by
  rw [← sq_norm, h]; norm_num

theorem norm_smul (c : ℝ) (a : Vec3) : (c • a).norm = |c| * a.norm := by
  have h : (c • a).normSq = c ^ 2 * a.normSq := by
    simp only [normSq, dot, smul_x, smul_y, smul_z]
    ring
  rw [norm, h, Real.sqrt_mul (sq_nonneg c), Real.sqrt_sq_eq_abs, norm]

theorem norm_normalize {a : Vec3} (h : a ≠ 0) : a.normalize.norm = 1 := by
  have hp := norm_pos_of_ne_zero h
  rw [normalize, norm_smul, abs_of_pos (by positivity)]
  field_simp

theorem smul_normalize_norm {a : Vec3} (h : a ≠ 0) : a.norm • a.normalize = a := by
  have hp := norm_pos_of_ne_zero h
  have hne : a.norm ≠ 0 := ne_of_gt hp
  rw [normalize]
  apply ext3 <;> simp <;> field_simp

theorem normalize_smul_pos {s : ℝ} {a : Vec3} (hs : 0 < s) (ha : a.norm = 1) :
    (s • a).normalize = a := by
  rw [normalize, norm_smul, abs_of_pos hs, ha, mul_one]
  apply ext3 <;> simp <;> field_simp

/-- Lagrange's identity specialised to 3D: the squared length of a cross
product is the Gram determinant of the two factors. -/
theorem normSq_cross (a b : Vec3) :
    (a.cross b).normSq = a.normSq * b.normSq - (a.dot b) ^ 2 := by
  simp only [normSq, dot, cross]
  ring

theorem dot_comm (a b : Vec3) : a.dot b = b.dot a := by
  simp only [dot]; ring

theorem dot_smul_right (c : ℝ) (a b : Vec3) : a.dot (c • b) = c * a.dot b := by
  simp only [dot, smul_x, smul_y, smul_z]; ring

theorem dot_cross_self_left (a b : Vec3) : (a.cross b).dot a = 0 := by
  simp only [dot, cross]; ring

theorem dot_cross_self_right (a b : Vec3) : (a.cross b).dot b = 0 := by
  simp only [dot, cross]; ring

theorem zero_smul_vec (a : Vec3) : (0 : ℝ) • a = 0 := by
  apply ext3 <;> simp

theorem sub_zero_vec (a : Vec3) : a - 0 = a := by
  apply ext3 <;> simp

theorem sub_eq_zero_iff_vec (a b : Vec3) : a - b = 0 ↔ a = b := by
  constructor
  · intro h
    have hx := congrArg Vec3.x h
    have hy := congrArg Vec3.y h
    have hz := congrArg Vec3.z h
    simp at hx hy hz
    apply ext3 <;> linarith
  · intro h
    subst h
    apply ext3 <;> simp

theorem smul_eq_zero_iff_vec {s : ℝ} (hs : s ≠ 0) (a : Vec3) :
    s • a = 0 ↔ a = 0 := by
  constructor
  · intro h
    have hx := congrArg Vec3.x h
    have hy := congrArg Vec3.y h
    have hz := congrArg Vec3.z h
    simp [mul_eq_zero, hs] at hx hy hz
    apply ext3 <;> simp <;> assumption
  · intro h
    subst h
    apply ext3 <;> simp

theorem zero_add_vec (a : Vec3) : 0 + a = a := by
  apply ext3 <;> simp

theorem add_zero_vec (a : Vec3) : a + 0 = a := by
  apply ext3 <;> simp

theorem cross_self (a : Vec3) : a.cross a = 0 := by
  apply ext3 <;> simp [cross] <;> ring

theorem cross_add_right (a b c : Vec3) :
    a.cross (b + c) = a.cross b + a.cross c := by
  apply ext3 <;> simp [cross] <;> ring

theorem cross_add_left (a b c : Vec3) :
    (a + b).cross c = a.cross c + b.cross c := by
  apply ext3 <;> simp [cross] <;> ring

theorem cross_smul_right (c : ℝ) (a b : Vec3) :
    a.cross (c • b) = c • a.cross b := by
  apply ext3 <;> simp [cross] <;> ring

theorem cross_smul_smul (s : ℝ) (a b : Vec3) :
    (s • a).cross (s • b) = (s * s) • a.cross b := by
  apply ext3 <;> simp [cross] <;> ring

/-- The vector triple product (BAC–CAB) identity. -/
theorem triple_product (a b c : Vec3) :
    a.cross (b.cross c) = (a.dot c) • b - (a.dot b) • c := by
  apply ext3 <;> simp [cross, dot] <;> ring

/-- The square of the scalar triple product is the 3×3 Gram determinant. -/
theorem triple_sq (a b c : Vec3) :
    ((a.cross b).dot c) ^ 2 =
      (a.dot a) * ((b.dot b) * (c.dot c) - (b.dot c) ^ 2)
        - (a.dot b) * ((a.dot b) * (c.dot c) - (b.dot c) * (a.dot c))
        + (a.dot c) * ((a.dot b) * (b.dot c) - (b.dot b) * (a.dot c)) := by
  simp only [dot, cross]
  ring

theorem dot_projectOut (w d : Vec3) :
    (w - (w.dot d) • d).dot d = w.dot d * (1 - d.dot d) := by
  simp only [dot, sub_x, sub_y, sub_z, smul_x, smul_y, smul_z]
  ring

theorem projectOut_of_parallel {d : Vec3} (hd : d.normSq = 1) (k : ℝ) :
    (k • d) - ((k • d).dot d) • d = 0 := by
  simp only [normSq, dot] at hd
  refine ext3 ?_ ?_ ?_ <;> simp [dot]
  · linear_combination (-(k * d.x)) * hd
  · linear_combination (-(k * d.y)) * hd
  · linear_combination (-(k * d.z)) * hd

theorem cross_ne_zero_of_unit_orth {d w : Vec3} (hd : d.norm = 1)
    (horth : w.dot d = 0) (hw : w ≠ 0) : d.cross w ≠ 0 := by
  intro hc
  have h1 : (d.cross w).normSq = 0 := by rw [hc]; simp [normSq, dot]
  have h2 : d.normSq = 1 := normSq_of_norm_one hd
  have h3 : d.dot w = 0 := by rw [dot_comm]; exact horth
  rw [normSq_cross, h2, h3] at h1
  have h4 : w.normSq = 0 := by linarith
  exact hw ((normSq_eq_zero_iff w).mp h4)

theorem norm_cross_of_orth {a b : Vec3} (h : a.dot b = 0) :
    (a.cross b).norm = a.norm * b.norm := by
  rw [norm, normSq_cross, h]
  rw [show a.normSq * b.normSq - 0 ^ 2 = a.normSq * b.normSq by ring]
  rw [Real.sqrt_mul (normSq_nonneg a), norm, norm]

end Vec3

namespace LinearTransformation

theorem applyToVector_identityMap (v : Vec3) :
    identityMap.applyToVector v = v := by
  apply Vec3.ext3 <;> simp [applyToVector, identityMap]

theorem applyToVector_uniformScale (s : ℝ) (v : Vec3) :
    (uniformScale s).applyToVector v = s • v := by
  apply Vec3.ext3 <;> simp [applyToVector, uniformScale] <;> ring

theorem det_uniformScale (s : ℝ) : (uniformScale s).det = s ^ 3 := by
  simp only [det, uniformScale, Vec3.cross, Vec3.dot]
  ring

theorem applyToVector_col1 (t : LinearTransformation) :
    t.applyToVector ⟨1, 0, 0⟩ = t.col_1 := by
  apply Vec3.ext3 <;> simp [applyToVector]

theorem applyToVector_col2 (t : LinearTransformation) :
    t.applyToVector ⟨0, 1, 0⟩ = t.col_2 := by
  apply Vec3.ext3 <;> simp [applyToVector]

theorem applyToVector_col3 (t : LinearTransformation) :
    t.applyToVector ⟨0, 0, 1⟩ = t.col_3 := by
  apply Vec3.ext3 <;> simp [applyToVector]

/-- A dot-product-preserving map (a rotation or reflection) has nonzero
determinant, hence never trips the `InvalidTransformation` check. -/
theorem det_ne_zero_of_dot_preserving {t : LinearTransformation}
    (hrot : ∀ a b : Vec3, (t.applyToVector a).dot (t.applyToVector b) = a.dot b) :
    t.det ≠ 0 := by
  have h11 : t.col_1.dot t.col_1 = 1 := by
    have h := hrot ⟨1, 0, 0⟩ ⟨1, 0, 0⟩
    rw [applyToVector_col1] at h
    simpa [Vec3.dot] using h
  have h22 : t.col_2.dot t.col_2 = 1 := by
    have h := hrot ⟨0, 1, 0⟩ ⟨0, 1, 0⟩
    rw [applyToVector_col2] at h
    simpa [Vec3.dot] using h
  have h33 : t.col_3.dot t.col_3 = 1 := by
    have h := hrot ⟨0, 0, 1⟩ ⟨0, 0, 1⟩
    rw [applyToVector_col3] at h
    simpa [Vec3.dot] using h
  have h12 : t.col_1.dot t.col_2 = 0 := by
    have h := hrot ⟨1, 0, 0⟩ ⟨0, 1, 0⟩
    rw [applyToVector_col1, applyToVector_col2] at h
    simpa [Vec3.dot] using h
  have h13 : t.col_1.dot t.col_3 = 0 := by
    have h := hrot ⟨1, 0, 0⟩ ⟨0, 0, 1⟩
    rw [applyToVector_col1, applyToVector_col3] at h
    simpa [Vec3.dot] using h
  have h23 : t.col_2.dot t.col_3 = 0 := by
    have h := hrot ⟨0, 1, 0⟩ ⟨0, 0, 1⟩
    rw [applyToVector_col2, applyToVector_col3] at h
    simpa [Vec3.dot] using h
  have hsq : t.det ^ 2 = 1 := by
    simp only [det]
    rw [Vec3.triple_sq, h11, h22, h33, h12, h13, h23]
    norm_num
  intro h0
  rw [h0] at hsq
  norm_num at hsq

theorem normSq_applyToVector_of_dot_preserving {t : LinearTransformation}
    (hrot : ∀ a b : Vec3, (t.applyToVector a).dot (t.applyToVector b) = a.dot b)
    (v : Vec3) : (t.applyToVector v).normSq = v.normSq := by
  rw [Vec3.normSq, Vec3.normSq, hrot]

theorem applyToVector_ne_zero_of_dot_preserving {t : LinearTransformation}
    (hrot : ∀ a b : Vec3, (t.applyToVector a).dot (t.applyToVector b) = a.dot b)
    {v : Vec3} (hv : v ≠ 0) : t.applyToVector v ≠ 0 := by
  intro h0
  apply hv
  rw [← Vec3.normSq_eq_zero_iff]
  rw [← normSq_applyToVector_of_dot_preserving hrot v, h0]
  simp [Vec3.normSq, Vec3.dot]

end LinearTransformation

namespace Rendering3D

namespace RectangularAreaLight

/-- Success of the direction-based constructor pins down the input as
non-degenerate and the resulting state. -/
theorem mk_ok_shape {c d w : Vec3} {h p : ℝ} {n : ℕ} {l : RectangularAreaLight}
    (hok : mkFromDirection c d w h p n = .ok l) :
    0 < h ∧ w - (w.dot d) • d ≠ 0 ∧
      l = { origin := c
            width_vector := (w - (w.dot d) • d).norm • (w - (w.dot d) • d).normalize
            height_vector :=
              h • (d.cross ((w - (w.dot d) • d).norm • (w - (w.dot d) • d).normalize)).normalize
            direction := d
            power := p
            width := (w - (w.dot d) • d).norm
            height := h
            n_samples := n } := by
  simp only [mkFromDirection] at hok
  split at hok
  · exact absurd hok (by simp)
  · next hcond =>
    push_neg at hcond
    injection hok with hok
    exact ⟨hcond.1, hcond.2, hok.symm⟩

/-- Success of the direction-based constructor with a unit direction
establishes the construction invariant. -/
theorem mk_ok_valid {c d w : Vec3} {h p : ℝ} {n : ℕ} {l : RectangularAreaLight}
    (hd : d.norm = 1) (hok : mkFromDirection c d w h p n = .ok l) : l.Valid := by
  obtain ⟨h1, h2, h3⟩ := mk_ok_shape hok
  subst h3
  have hproj : (w - (w.dot d) • d).norm • (w - (w.dot d) • d).normalize
      = w - (w.dot d) • d := Vec3.smul_normalize_norm h2
  have hdd : d.dot d = 1 := Vec3.normSq_of_norm_one hd
  refine ⟨hd, ?_, ?_, ?_, h1, ?_⟩
  · show ((w - (w.dot d) • d).norm • (w - (w.dot d) • d).normalize).dot d = 0
    rw [hproj, Vec3.dot_projectOut, hdd]
    ring
  · show (w - (w.dot d) • d).norm • (w - (w.dot d) • d).normalize ≠ 0
    rw [hproj]
    exact h2
  · show ((w - (w.dot d) • d).norm • (w - (w.dot d) • d).normalize).norm
      = (w - (w.dot d) • d).norm
    rw [hproj]
  · rfl

theorem Valid.direction_unit {l : RectangularAreaLight} (hV : l.Valid) :
    l.direction.norm = 1 := hV.1

theorem Valid.wv_orth {l : RectangularAreaLight} (hV : l.Valid) :
    l.width_vector.dot l.direction = 0 := hV.2.1

theorem Valid.wv_ne_zero {l : RectangularAreaLight} (hV : l.Valid) :
    l.width_vector ≠ 0 := hV.2.2.1

theorem Valid.height_pos {l : RectangularAreaLight} (hV : l.Valid) :
    0 < l.height := hV.2.2.2.2.1

theorem Valid.hv_eq {l : RectangularAreaLight} (hV : l.Valid) :
    l.height_vector = l.height • (l.direction.cross l.width_vector).normalize :=
  hV.2.2.2.2.2

theorem Valid.cross_dw_ne_zero {l : RectangularAreaLight} (hV : l.Valid) :
    l.direction.cross l.width_vector ≠ 0 :=
  Vec3.cross_ne_zero_of_unit_orth hV.1 hV.2.1 hV.2.2.1

theorem Valid.wv_dot_hv {l : RectangularAreaLight} (hV : l.Valid) :
    l.width_vector.dot l.height_vector = 0 := by
  have h0 : l.width_vector.dot (l.direction.cross l.width_vector) = 0 := by
    rw [Vec3.dot_comm]
    exact Vec3.dot_cross_self_right _ _
  rw [hV.hv_eq, Vec3.dot_smul_right, Vec3.normalize, Vec3.dot_smul_right, h0]
  ring

theorem Valid.norm_hv {l : RectangularAreaLight} (hV : l.Valid) :
    l.height_vector.norm = l.height := by
  rw [hV.hv_eq, Vec3.norm_smul, Vec3.norm_normalize hV.cross_dw_ne_zero,
    abs_of_pos hV.height_pos, mul_one]

theorem Valid.hv_ne_zero {l : RectangularAreaLight} (hV : l.Valid) :
    l.height_vector ≠ 0 := by
  intro h0
  have h1 := hV.norm_hv
  rw [h0] at h1
  have h2 : (0 : Vec3).norm = 0 := by
    simp [Vec3.norm, Vec3.normSq, Vec3.dot]
  rw [h2] at h1
  exact ne_of_gt hV.height_pos h1.symm

/-- The area of a valid light equals the product of the edge lengths. -/
theorem Valid.area_eq_product {l : RectangularAreaLight} (hV : l.Valid) :
    l.getSurfaceArea = l.width_vector.norm * l.height_vector.norm := by
  rw [getSurfaceArea, Vec3.norm_cross_of_orth hV.wv_dot_hv]

theorem norm_demo_direction : (Vec3.mk 0 0 (-1)).norm = 1 := by
  have h1 : (Vec3.mk 0 0 (-1)).normSq = 1 := by
    norm_num [Vec3.normSq, Vec3.dot]
  rw [Vec3.norm, h1, Real.sqrt_one]

theorem norm_demo_width : (Vec3.mk 2 0 0).norm = 2 := by
  have h1 : (Vec3.mk 2 0 0).normSq = 4 := by
    norm_num [Vec3.normSq, Vec3.dot]
  rw [Vec3.norm, h1, show (4 : ℝ) = 2 ^ 2 by norm_num, Real.sqrt_sq (by norm_num)]

theorem norm_demo_height : (Vec3.mk 0 (-2) 0).norm = 2 := by
  have h1 : (Vec3.mk 0 (-2) 0).normSq = 4 := by
    norm_num [Vec3.normSq, Vec3.dot]
  rw [Vec3.norm, h1, show (4 : ℝ) = 2 ^ 2 by norm_num, Real.sqrt_sq (by norm_num)]

theorem demo_cross : (Vec3.mk 0 0 (-1)).cross (Vec3.mk 2 0 0) = ⟨0, -2, 0⟩ := by
  apply Vec3.ext3 <;> norm_num [Vec3.cross]

theorem demo_normalize_cross :
    ((Vec3.mk 0 0 (-1)).cross (Vec3.mk 2 0 0)).normalize = ⟨0, -1, 0⟩ := by
  rw [demo_cross, Vec3.normalize, norm_demo_height]
  apply Vec3.ext3 <;> norm_num

/-- The concrete light of spec.md §8 satisfies the construction
invariant. -/
theorem demoLight_valid : demoLight.Valid := by
  refine ⟨norm_demo_direction, ?_, ?_, norm_demo_width, by norm_num [demoLight], ?_⟩
  · norm_num [demoLight, Vec3.dot]
  · intro h0
    have hx := congrArg Vec3.x h0
    norm_num [demoLight] at hx
  · show (Vec3.mk 0 (-2) 0)
      = (2 : ℝ) • ((Vec3.mk 0 0 (-1)).cross (Vec3.mk 2 0 0)).normalize
    rw [demo_normalize_cross]
    apply Vec3.ext3 <;> norm_num

/-- Evaluating the direction-based constructor on the concrete input of
spec.md §8 yields `demoLight`. -/
theorem mk_demo :
    mkFromDirection ⟨0, 0, 0⟩ ⟨0, 0, -1⟩ ⟨2, 0, 0⟩ 2 10 4 = .ok demoLight := by
  have hproj : (Vec3.mk 2 0 0) - ((Vec3.mk 2 0 0).dot ⟨0, 0, -1⟩) • ⟨0, 0, -1⟩
      = ⟨2, 0, 0⟩ := by
    apply Vec3.ext3 <;> norm_num [Vec3.dot]
  have hne : (Vec3.mk 2 0 0) ≠ 0 := by
    intro h0
    have hx := congrArg Vec3.x h0
    norm_num at hx
  simp only [mkFromDirection, hproj]
  rw [if_neg]
  · congr 1
    rw [Vec3.smul_normalize_norm hne]
    show ({ origin := ⟨0, 0, 0⟩, width_vector := ⟨2, 0, 0⟩,
            height_vector := (2 : ℝ) • ((Vec3.mk 0 0 (-1)).cross ⟨2, 0, 0⟩).normalize,
            direction := ⟨0, 0, -1⟩, power := 10, width := (Vec3.mk 2 0 0).norm,
            height := 2, n_samples := 4 } : RectangularAreaLight) = demoLight
    rw [demo_normalize_cross, norm_demo_width]
    show ({ origin := ⟨0, 0, 0⟩, width_vector := ⟨2, 0, 0⟩,
            height_vector := (2 : ℝ) • (⟨0, -1, 0⟩ : Vec3),
            direction := ⟨0, 0, -1⟩, power := 10, width := 2,
            height := 2, n_samples := 4 } : RectangularAreaLight) = demoLight
    have hhv : (2 : ℝ) • (⟨0, -1, 0⟩ : Vec3) = ⟨0, -2, 0⟩ := by
      apply Vec3.ext3 <;> norm_num
    rw [hhv]
    rfl
  · push_neg
    exact ⟨by norm_num, hne⟩

theorem demo_normalize_direction :
    ((Vec3.mk 0 0 (-1)) - (Vec3.mk 0 0 0)).normalize = ⟨0, 0, -1⟩ := by
  have hsub : (Vec3.mk 0 0 (-1)) - (Vec3.mk 0 0 0) = ⟨0, 0, -1⟩ := by
    apply Vec3.ext3 <;> norm_num
  rw [hsub, Vec3.normalize, norm_demo_direction]
  apply Vec3.ext3 <;> norm_num

/-- Evaluating the point-based constructor on the concrete input of
spec.md §8 also yields `demoLight`. -/
theorem mk_demo_point :
    mkFromPoint ⟨0, 0, 0⟩ ⟨0, 0, -1⟩ ⟨2, 0, 0⟩ 2 10 4 = .ok demoLight := by
  rw [mkFromPoint, demo_normalize_direction, mk_demo]

theorem applyOp_preserves {l l2 : RectangularAreaLight} {op : LightOp}
    (hok : l.applyOp op = .ok l2) :
    l2.power = l.power ∧ l2.n_samples = l.n_samples ∧
      l2.creates_shadows = l.creates_shadows ∧
      l2.ambient_radiance = l.ambient_radiance := by
  cases op with
  | setFrame cframe =>
    simp only [applyOp] at hok
    injection hok with hok
    subst hok
    exact ⟨rfl, rfl, rfl, rfl⟩
  | linearMap t =>
    simp only [applyOp, applyTransformationLinear] at hok
    split at hok
    · exact absurd hok (by simp)
    · injection hok with hok
      subst hok
      exact ⟨rfl, rfl, rfl, rfl⟩
  | affineMap t =>
    simp only [applyOp, applyTransformationAffine] at hok
    split at hok
    · exact absurd hok (by simp)
    · injection hok with hok
      subst hok
      exact ⟨rfl, rfl, rfl, rfl⟩

theorem applyOps_preserves {ops : List LightOp} {l l2 : RectangularAreaLight}
    (hok : l.applyOps ops = .ok l2) :
    l2.power = l.power ∧ l2.n_samples = l.n_samples ∧
      l2.creates_shadows = l.creates_shadows ∧
      l2.ambient_radiance = l.ambient_radiance := by
  induction ops generalizing l with
  | nil =>
    simp only [applyOps] at hok
    injection hok with hok
    subst hok
    exact ⟨rfl, rfl, rfl, rfl⟩
  | cons op rest ih =>
    simp only [applyOps] at hok
    cases hstep : l.applyOp op with
    | error e =>
      rw [hstep] at hok
      exact absurd hok (by simp)
    | ok lmid =>
      rw [hstep] at hok
      obtain ⟨p1, p2, p3, p4⟩ := applyOp_preserves hstep
      obtain ⟨q1, q2, q3, q4⟩ := ih hok
      exact ⟨q1.trans p1, q2.trans p2, q3.trans p3, q4.trans p4⟩

/-- A valid light's frame round-trips: feeding `getCoordinateFrame` back
into `setCoordinateFrame` reproduces the light exactly. -/
theorem setFrame_roundtrip {l : RectangularAreaLight} (hV : l.Valid) :
    l.setCoordinateFrame l.getCoordinateFrame = l := by
  obtain ⟨hd, horth, hw, hwn, hh, hhv⟩ := hV
  simp only [setCoordinateFrame, getCoordinateFrame]
  rw [horth, Vec3.zero_smul_vec, Vec3.sub_zero_vec, ← hwn,
    Vec3.smul_normalize_norm hw, ← hhv, hwn]

/-- Claim C1: for every validly constructed light, `getRandomPoint` on two
uniform draws `u`, `v` returns `origin − width_vector/2 − height_vector/2 +
u·width_vector + v·height_vector`, and `getRandomSurfaceElement` wraps that
same point with the light's fixed normal (= `direction`) and the constant
sampling density `1 / getSurfaceArea()`. -/
theorem uniform_sampling_formula (l : RectangularAreaLight) (u v : ℝ)
    (_hV : l.Valid) :
    l.getRandomPoint u v =
      l.origin - (1 / 2 : ℝ) • l.width_vector - (1 / 2 : ℝ) • l.height_vector
        + u • l.width_vector + v • l.height_vector ∧
    (l.getRandomSurfaceElement u v).point = l.getRandomPoint u v ∧
    (l.getRandomSurfaceElement u v).normal = l.direction ∧
    (l.getRandomSurfaceElement u v).density = 1 / l.getSurfaceArea :=
  ⟨rfl, rfl, rfl, rfl⟩

theorem uniform_sampling_formula_witness :
    demoLight.getRandomPoint 0 0 =
      demoLight.origin - (1 / 2 : ℝ) • demoLight.width_vector
        - (1 / 2 : ℝ) • demoLight.height_vector
        + (0 : ℝ) • demoLight.width_vector + (0 : ℝ) • demoLight.height_vector ∧
    (demoLight.getRandomSurfaceElement 0 0).point = demoLight.getRandomPoint 0 0 ∧
    (demoLight.getRandomSurfaceElement 0 0).normal = demoLight.direction ∧
    (demoLight.getRandomSurfaceElement 0 0).density = 1 / demoLight.getSurfaceArea :=
  uniform_sampling_formula demoLight 0 0 demoLight_valid

/-- Claim C2: for every degenerate input — width vector parallel to the
(unit) direction, `height ≤ 0`, or zero-length width vector — both
constructors fail with `InvalidGeometry` rather than silently producing a
zero-area light. -/
theorem degenerate_construction_fails (c d w q : Vec3) (h p : ℝ) (n : ℕ)
    (hd : d.norm = 1) (hq : (q - c).normalize = d)
    (hdeg : (∃ k : ℝ, w = k • d) ∨ h ≤ 0 ∨ w = 0) :
    mkFromDirection c d w h p n = .error .InvalidGeometry ∧
    mkFromPoint c q w h p n = .error .InvalidGeometry := by
  have hmain : mkFromDirection c d w h p n = .error .InvalidGeometry := by
    have hcond : h ≤ 0 ∨ w - (w.dot d) • d = 0 := by
      rcases hdeg with ⟨k, hk⟩ | hh | hw
      · right
        subst hk
        exact Vec3.projectOut_of_parallel (Vec3.normSq_of_norm_one hd) k
      · left
        exact hh
      · right
        subst hw
        have hz : (0 : Vec3).dot d = 0 := by simp [Vec3.dot]
        rw [hz, Vec3.zero_smul_vec, Vec3.sub_zero_vec]
    simp only [mkFromDirection]
    rw [if_pos hcond]
  refine ⟨hmain, ?_⟩
  rw [mkFromPoint, hq]
  exact hmain

theorem degenerate_construction_fails_witness :
    mkFromDirection ⟨0, 0, 0⟩ ⟨0, 0, -1⟩ ⟨0, 0, 2⟩ 1 1 1
        = .error .InvalidGeometry ∧
    mkFromPoint ⟨0, 0, 0⟩ ⟨0, 0, -1⟩ ⟨0, 0, 2⟩ 1 1 1
        = .error .InvalidGeometry :=
  degenerate_construction_fails ⟨0, 0, 0⟩ ⟨0, 0, -1⟩ ⟨0, 0, 2⟩ ⟨0, 0, -1⟩ 1 1 1
    norm_demo_direction demo_normalize_direction
    (Or.inl ⟨-2, by apply Vec3.ext3 <;> norm_num⟩)

/-- Claim C3: for a validly constructed light `getSurfaceArea()` equals
`|width_vector| · |height_vector|`, while in general (in particular after a
transformation that destroys orthogonality of the edges) it is
`|width_vector × height_vector|`. -/
theorem surfaceArea_product_and_cross (l l2 : RectangularAreaLight)
    (hV : l.Valid) :
    l.getSurfaceArea = l.width_vector.norm * l.height_vector.norm ∧
    l2.getSurfaceArea = (l2.width_vector.cross l2.height_vector).norm :=
  ⟨hV.area_eq_product, rfl⟩

theorem surfaceArea_product_and_cross_witness :
    demoLight.getSurfaceArea
        = demoLight.width_vector.norm * demoLight.height_vector.norm ∧
    demoLight.getSurfaceArea
        = (demoLight.width_vector.cross demoLight.height_vector).norm :=
  surfaceArea_product_and_cross demoLight demoLight demoLight_valid

/-- Claim C5: both constructors establish the postcondition that
`width_vector` has no component along `direction` (the supplied width
vector is projected, normalized and rescaled) and that `height_vector =
normalize(direction × width_vector)` scaled by `height`. -/
theorem construction_orthogonalization (c d w q : Vec3) (h p : ℝ) (n : ℕ)
    (l l2 : RectangularAreaLight)
    (hd : d.norm = 1) (hqc : q ≠ c)
    (hok : mkFromDirection c d w h p n = .ok l)
    (hok2 : mkFromPoint c q w h p n = .ok l2) :
    (l.width_vector.dot l.direction = 0 ∧
      l.width_vector =
        (w - (w.dot d) • d).norm • (w - (w.dot d) • d).normalize ∧
      l.height_vector
        = l.height • (l.direction.cross l.width_vector).normalize) ∧
    (l2.width_vector.dot l2.direction = 0 ∧
      l2.height_vector
        = l2.height • (l2.direction.cross l2.width_vector).normalize) := by
  have hV := mk_ok_valid hd hok
  have hqd : q - c ≠ 0 := by
    intro h0
    exact hqc ((Vec3.sub_eq_zero_iff_vec q c).mp h0)
  simp only [mkFromPoint] at hok2
  have hV2 := mk_ok_valid (Vec3.norm_normalize hqd) hok2
  refine ⟨⟨hV.wv_orth, ?_, hV.hv_eq⟩, hV2.wv_orth, hV2.hv_eq⟩
  obtain ⟨-, -, h3⟩ := mk_ok_shape hok
  rw [h3]

theorem construction_orthogonalization_witness :
    (demoLight.width_vector.dot demoLight.direction = 0 ∧
      demoLight.width_vector =
        ((Vec3.mk 2 0 0) - ((Vec3.mk 2 0 0).dot ⟨0, 0, -1⟩) • ⟨0, 0, -1⟩).norm •
          ((Vec3.mk 2 0 0)
            - ((Vec3.mk 2 0 0).dot ⟨0, 0, -1⟩) • ⟨0, 0, -1⟩).normalize ∧
      demoLight.height_vector
        = demoLight.height •
            (demoLight.direction.cross demoLight.width_vector).normalize) ∧
    (demoLight.width_vector.dot demoLight.direction = 0 ∧
      demoLight.height_vector
        = demoLight.height •
            (demoLight.direction.cross demoLight.width_vector).normalize) :=
  construction_orthogonalization ⟨0, 0, 0⟩ ⟨0, 0, -1⟩ ⟨2, 0, 0⟩ ⟨0, 0, -1⟩
    2 10 4 demoLight demoLight norm_demo_direction
    (by
      intro h0
      have hz := congrArg Vec3.z h0
      norm_num at hz)
    mk_demo mk_demo_point

/-- Claim C7: after any successful sequence of `setCoordinateFrame` and
`applyTransformation` calls, `getTotalPower()` still returns exactly the
`Power` supplied at construction. -/
theorem totalPower_constant_under_mutation (c d w : Vec3) (h p : ℝ) (n : ℕ)
    (l l2 : RectangularAreaLight) (ops : List LightOp)
    (hok : mkFromDirection c d w h p n = .ok l)
    (hops : l.applyOps ops = .ok l2) :
    l2.getTotalPower = p := by
  obtain ⟨-, -, h3⟩ := mk_ok_shape hok
  have h4 := (applyOps_preserves hops).1
  rw [getTotalPower, h4, h3]

theorem totalPower_constant_under_mutation_witness :
    (demoLight.setCoordinateFrame demoLight.getCoordinateFrame).getTotalPower
      = 10 :=
  totalPower_constant_under_mutation ⟨0, 0, 0⟩ ⟨0, 0, -1⟩ ⟨2, 0, 0⟩ 2 10 4
    demoLight (demoLight.setCoordinateFrame demoLight.getCoordinateFrame)
    [LightOp.setFrame demoLight.getCoordinateFrame] mk_demo rfl

/-- Claim C8: `setCoordinateFrame(getCoordinateFrame())` is idempotent on a
validly constructed light — the four corners and the surface area are
unchanged, and the stored width/height scalars are preserved. -/
theorem setCoordinateFrame_roundtrip_invariant (l : RectangularAreaLight)
    (hV : l.Valid) :
    (l.setCoordinateFrame l.getCoordinateFrame).corner_mm = l.corner_mm ∧
    (l.setCoordinateFrame l.getCoordinateFrame).corner_pm = l.corner_pm ∧
    (l.setCoordinateFrame l.getCoordinateFrame).corner_pp = l.corner_pp ∧
    (l.setCoordinateFrame l.getCoordinateFrame).corner_mp = l.corner_mp ∧
    (l.setCoordinateFrame l.getCoordinateFrame).getSurfaceArea
      = l.getSurfaceArea ∧
    (l.setCoordinateFrame l.getCoordinateFrame).width = l.width ∧
    (l.setCoordinateFrame l.getCoordinateFrame).height = l.height := by
  rw [setFrame_roundtrip hV]
  exact ⟨rfl, rfl, rfl, rfl, rfl, rfl, rfl⟩

theorem setCoordinateFrame_roundtrip_invariant_witness :
    (demoLight.setCoordinateFrame demoLight.getCoordinateFrame).corner_mm
      = demoLight.corner_mm ∧
    (demoLight.setCoordinateFrame demoLight.getCoordinateFrame).corner_pm
      = demoLight.corner_pm ∧
    (demoLight.setCoordinateFrame demoLight.getCoordinateFrame).corner_pp
      = demoLight.corner_pp ∧
    (demoLight.setCoordinateFrame demoLight.getCoordinateFrame).corner_mp
      = demoLight.corner_mp ∧
    (demoLight.setCoordinateFrame demoLight.getCoordinateFrame).getSurfaceArea
      = demoLight.getSurfaceArea ∧
    (demoLight.setCoordinateFrame demoLight.getCoordinateFrame).width
      = demoLight.width ∧
    (demoLight.setCoordinateFrame demoLight.getCoordinateFrame).height
      = demoLight.height :=
  setCoordinateFrame_roundtrip_invariant demoLight demoLight_valid

/-- Claim C9: the affine overload of `applyTransformation` produces exactly
the same edge-vector, direction and scalar remapping as the linear overload
applied to the map's linear part, plus additionally translating the origin
by the map's translation component. -/
theorem affine_refines_linear (l : RectangularAreaLight)
    (t : AffineTransformation) :
    l.applyTransformationAffine t =
      (l.applyTransformationLinear t.linearPart).map
        (fun l2 => { l2 with origin := l2.origin + t.translationPart }) := by
  simp only [applyTransformationAffine, applyTransformationLinear,
    AffineTransformation.applyToVector, AffineTransformation.applyToPoint]
  by_cases hcond : t.linearPart.applyToVector l.width_vector = 0 ∨
      t.linearPart.applyToVector l.height_vector = 0 ∨ t.linearPart.det = 0
  · rw [if_pos hcond, if_pos hcond]
    rfl
  · rw [if_neg hcond, if_neg hcond]
    rfl

/-- Claim C4: a dot-product-preserving (rigid) map leaves `getSurfaceArea`
and `getTotalPower` unchanged through either `applyTransformation`
overload (the affine case additionally covers pure translations), while a
uniform scale by `s ≠ 0` multiplies `getSurfaceArea` by `s²` and leaves
`getTotalPower` unchanged. -/
theorem rigid_and_scale_transformation (l : RectangularAreaLight)
    (t : LinearTransformation) (trans : Vec3) (s : ℝ)
    (hV : l.Valid)
    (hrot : ∀ a b : Vec3,
      (t.applyToVector a).dot (t.applyToVector b) = a.dot b)
    (hs : s ≠ 0) :
    (l.applyTransformationLinear t).map getSurfaceArea
        = .ok l.getSurfaceArea ∧
    (l.applyTransformationLinear t).map getTotalPower
        = .ok l.getTotalPower ∧
    (l.applyTransformationAffine ⟨t, trans⟩).map getSurfaceArea
        = .ok l.getSurfaceArea ∧
    (l.applyTransformationAffine ⟨t, trans⟩).map getTotalPower
        = .ok l.getTotalPower ∧
    (l.applyTransformationLinear (LinearTransformation.uniformScale s)).map
        getSurfaceArea = .ok (s ^ 2 * l.getSurfaceArea) ∧
    (l.applyTransformationLinear (LinearTransformation.uniformScale s)).map
        getTotalPower = .ok l.getTotalPower := by
  have hw0 := hV.wv_ne_zero
  have hh0 := hV.hv_ne_zero
  have hw1 : t.applyToVector l.width_vector ≠ 0 :=
    LinearTransformation.applyToVector_ne_zero_of_dot_preserving hrot hw0
  have hh1 : t.applyToVector l.height_vector ≠ 0 :=
    LinearTransformation.applyToVector_ne_zero_of_dot_preserving hrot hh0
  have hdet : t.det ≠ 0 :=
    LinearTransformation.det_ne_zero_of_dot_preserving hrot
  have hcond : ¬(t.applyToVector l.width_vector = 0 ∨
      t.applyToVector l.height_vector = 0 ∨ t.det = 0) := by
    push_neg
    exact ⟨hw1, hh1, hdet⟩
  have harea :
      ((t.applyToVector l.width_vector).cross
        (t.applyToVector l.height_vector)).norm
      = (l.width_vector.cross l.height_vector).norm := by
    rw [Vec3.norm, Vec3.norm, Vec3.normSq_cross, Vec3.normSq_cross,
      LinearTransformation.normSq_applyToVector_of_dot_preserving hrot,
      LinearTransformation.normSq_applyToVector_of_dot_preserving hrot,
      hrot]
  have hsw := LinearTransformation.applyToVector_uniformScale s l.width_vector
  have hsh := LinearTransformation.applyToVector_uniformScale s l.height_vector
  have hw2 : (LinearTransformation.uniformScale s).applyToVector l.width_vector
      ≠ 0 := by
    rw [hsw]
    intro h0
    exact hw0 ((Vec3.smul_eq_zero_iff_vec hs l.width_vector).mp h0)
  have hh2 : (LinearTransformation.uniformScale s).applyToVector l.height_vector
      ≠ 0 := by
    rw [hsh]
    intro h0
    exact hh0 ((Vec3.smul_eq_zero_iff_vec hs l.height_vector).mp h0)
  have hdet2 : (LinearTransformation.uniformScale s).det ≠ 0 := by
    rw [LinearTransformation.det_uniformScale]
    exact pow_ne_zero 3 hs
  have hcond2 : ¬((LinearTransformation.uniformScale s).applyToVector
        l.width_vector = 0 ∨
      (LinearTransformation.uniformScale s).applyToVector l.height_vector = 0 ∨
      (LinearTransformation.uniformScale s).det = 0) := by
    push_neg
    exact ⟨hw2, hh2, hdet2⟩
  have hareas :
      ((LinearTransformation.uniformScale s).applyToVector l.width_vector).cross
        ((LinearTransformation.uniformScale s).applyToVector l.height_vector)
      = (s * s) • (l.width_vector.cross l.height_vector) := by
    rw [hsw, hsh, Vec3.cross_smul_smul]
  refine ⟨?_, ?_, ?_, ?_, ?_, ?_⟩
  · simp only [applyTransformationLinear]
    rw [if_neg hcond]
    simp only [Except.map]
    show Except.ok (((t.applyToVector l.width_vector).cross
        (t.applyToVector l.height_vector)).norm) = _
    rw [harea]
    rfl
  · simp only [applyTransformationLinear]
    rw [if_neg hcond]
    rfl
  · simp only [applyTransformationAffine, AffineTransformation.applyToVector]
    rw [if_neg hcond]
    simp only [Except.map]
    show Except.ok (((t.applyToVector l.width_vector).cross
        (t.applyToVector l.height_vector)).norm) = _
    rw [harea]
    rfl
  · simp only [applyTransformationAffine, AffineTransformation.applyToVector]
    rw [if_neg hcond]
    rfl
  · simp only [applyTransformationLinear]
    rw [if_neg hcond2]
    simp only [Except.map]
    show Except.ok ((((LinearTransformation.uniformScale s).applyToVector
        l.width_vector).cross ((LinearTransformation.uniformScale s).applyToVector
        l.height_vector)).norm) = _
    rw [hareas, Vec3.norm_smul, abs_mul_self]
    show Except.ok (s * s * (l.width_vector.cross l.height_vector).norm) = _
    rw [show s * s = s ^ 2 by ring]
    rfl
  · simp only [applyTransformationLinear]
    rw [if_neg hcond2]
    rfl

theorem rigid_and_scale_transformation_witness :
    (demoLight.applyTransformationLinear
        LinearTransformation.identityMap).map getSurfaceArea
      = .ok demoLight.getSurfaceArea ∧
    (demoLight.applyTransformationLinear
        LinearTransformation.identityMap).map getTotalPower
      = .ok demoLight.getTotalPower ∧
    (demoLight.applyTransformationAffine
        ⟨LinearTransformation.identityMap, ⟨1, 2, 3⟩⟩).map getSurfaceArea
      = .ok demoLight.getSurfaceArea ∧
    (demoLight.applyTransformationAffine
        ⟨LinearTransformation.identityMap, ⟨1, 2, 3⟩⟩).map getTotalPower
      = .ok demoLight.getTotalPower ∧
    (demoLight.applyTransformationLinear
        (LinearTransformation.uniformScale 2)).map getSurfaceArea
      = .ok ((2 : ℝ) ^ 2 * demoLight.getSurfaceArea) ∧
    (demoLight.applyTransformationLinear
        (LinearTransformation.uniformScale 2)).map getTotalPower
      = .ok demoLight.getTotalPower :=
  rigid_and_scale_transformation demoLight LinearTransformation.identityMap
    ⟨1, 2, 3⟩ 2 demoLight_valid
    (by
      intro a b
      rw [LinearTransformation.applyToVector_identityMap,
        LinearTransformation.applyToVector_identityMap])
    (by norm_num)

/-- Claim C6: for a validly constructed light, `getMesh()` consists of
exactly two triangles whose vertices are the four corners
`origin ± width_vector/2 ± height_vector/2`, wound so that the outward
unit normal of each triangle equals `direction`. -/
theorem mesh_two_triangles_normal (l : RectangularAreaLight) (hV : l.Valid) :
    l.getMesh = [⟨l.corner_mm, l.corner_pm, l.corner_pp⟩,
                 ⟨l.corner_mm, l.corner_pp, l.corner_mp⟩] ∧
    TriangleMesh.size l.getMesh = 2 ∧
    (Triangle.mk l.corner_mm l.corner_pm l.corner_pp).unitNormal
      = l.direction ∧
    (Triangle.mk l.corner_mm l.corner_pp l.corner_mp).unitNormal
      = l.direction := by
  have hcr := hV.cross_dw_ne_zero
  have hN : 0 < (l.direction.cross l.width_vector).norm :=
    Vec3.norm_pos_of_ne_zero hcr
  have hwpos : 0 < l.width_vector.normSq := by
    rcases lt_or_eq_of_le (Vec3.normSq_nonneg l.width_vector) with h1 | h1
    · exact h1
    · exact absurd ((Vec3.normSq_eq_zero_iff l.width_vector).mp h1.symm)
        hV.wv_ne_zero
  have key : l.width_vector.cross l.height_vector
      = (l.height * ((1 / (l.direction.cross l.width_vector).norm)
          * l.width_vector.normSq)) • l.direction := by
    rw [hV.hv_eq, Vec3.cross_smul_right, Vec3.normalize,
      Vec3.cross_smul_right, Vec3.triple_product, hV.wv_orth,
      Vec3.zero_smul_vec, Vec3.sub_zero_vec]
    show l.height • (1 / (l.direction.cross l.width_vector).norm) •
        (l.width_vector.dot l.width_vector) • l.direction = _
    apply Vec3.ext3 <;> simp [Vec3.normSq] <;> ring
  have hspos : 0 < l.height * ((1 / (l.direction.cross l.width_vector).norm)
      * l.width_vector.normSq) := by
    have := hV.height_pos
    positivity
  have e1 : l.corner_pm - l.corner_mm = l.width_vector := by
    simp only [corner_pm, corner_mm]
    apply Vec3.ext3 <;> simp <;> ring
  have e2 : l.corner_pp - l.corner_mm = l.width_vector + l.height_vector := by
    simp only [corner_pp, corner_mm]
    apply Vec3.ext3 <;> simp <;> ring
  have e3 : l.corner_mp - l.corner_mm = l.height_vector := by
    simp only [corner_mp, corner_mm]
    apply Vec3.ext3 <;> simp <;> ring
  refine ⟨rfl, rfl, ?_, ?_⟩
  · show ((l.corner_pm - l.corner_mm).cross
        (l.corner_pp - l.corner_mm)).normalize = l.direction
    rw [e1, e2, Vec3.cross_add_right, Vec3.cross_self, Vec3.zero_add_vec, key]
    exact Vec3.normalize_smul_pos hspos hV.direction_unit
  · show ((l.corner_pp - l.corner_mm).cross
        (l.corner_mp - l.corner_mm)).normalize = l.direction
    rw [e2, e3, Vec3.cross_add_left, Vec3.cross_self, Vec3.add_zero_vec, key]
    exact Vec3.normalize_smul_pos hspos hV.direction_unit

theorem mesh_two_triangles_normal_witness :
    demoLight.getMesh =
        [⟨demoLight.corner_mm, demoLight.corner_pm, demoLight.corner_pp⟩,
         ⟨demoLight.corner_mm, demoLight.corner_pp, demoLight.corner_mp⟩] ∧
    TriangleMesh.size demoLight.getMesh = 2 ∧
    (Triangle.mk demoLight.corner_mm demoLight.corner_pm
        demoLight.corner_pp).unitNormal = demoLight.direction ∧
    (Triangle.mk demoLight.corner_mm demoLight.corner_pp
        demoLight.corner_mp).unitNormal = demoLight.direction :=
  mesh_two_triangles_normal demoLight demoLight_valid

/-- Claim C10: `setCoordinateFrame` and both `applyTransformation`
overloads leave the stored sample count (the value supplied at
construction), the `creates_shadows` flag and the `ambient_radiance` value
unchanged. -/
theorem config_constant_under_mutation (c d w : Vec3) (h p : ℝ) (n : ℕ)
    (l l2 : RectangularAreaLight) (ops : List LightOp)
    (hok : mkFromDirection c d w h p n = .ok l)
    (hops : l.applyOps ops = .ok l2) :
    l2.getNumberOfSamples = n ∧ l2.creates_shadows = l.creates_shadows ∧
      l2.ambient_radiance = l.ambient_radiance := by
  obtain ⟨-, -, h3⟩ := mk_ok_shape hok
  obtain ⟨-, q2, q3, q4⟩ := applyOps_preserves hops
  refine ⟨?_, q3, q4⟩
  rw [getNumberOfSamples, q2, h3]

theorem config_constant_under_mutation_witness :
    (demoLight.setCoordinateFrame demoLight.getCoordinateFrame).getNumberOfSamples
      = 4 ∧
    (demoLight.setCoordinateFrame demoLight.getCoordinateFrame).creates_shadows
      = demoLight.creates_shadows ∧
    (demoLight.setCoordinateFrame demoLight.getCoordinateFrame).ambient_radiance
      = demoLight.ambient_radiance :=
  config_constant_under_mutation ⟨0, 0, 0⟩ ⟨0, 0, -1⟩ ⟨2, 0, 0⟩ 2 10 4
    demoLight (demoLight.setCoordinateFrame demoLight.getCoordinateFrame)
    [LightOp.setFrame demoLight.getCoordinateFrame] mk_demo rfl

end RectangularAreaLight

end Rendering3D

end Impact
